import Mathlib

/-!
Verification of the exercise-catalog CSV exporter.

The repository's scripts (`complete_export.py`, `export_all_exercises.py`,
`export_complete.py`, `json_to_csv.py`, `export_exercises.py`) all take a list
of exercise records (JSON-shaped mappings from field name to string / boolean /
null) and write them to a CSV file through Python's `csv.DictWriter` with a
fixed `fieldnames` list.

This file shallowly embeds that pipeline:

* `Value` / `Record` model the JSON values and the Python dicts;
* `encodeRow` models the `csv` module's `excel` dialect writer
  (QUOTE_MINIMAL quoting: a field is quoted iff it contains `,`, `"`, CR or
  LF; a quote is doubled inside a quoted field; rows end with CRLF; a row
  consisting of a single empty field is written as `""`);
* `exportLoop` / `exportCore` model the script bodies: `DictWriter` with the
  default `restval=''` (missing keys become empty cells) and default
  `extrasaction='raise'` (an unexpected key raises `ValueError` before the row
  is written), the in-place `None`-to-`""` normalization loop of
  `complete_export.py` / `export_all_exercises.py`, the surrounding
  `try/except` (any exception aborts the export, nothing is cleaned up, and
  the success count is only printed when the loop completes), and an optional
  fallible destination (`failAfter`) standing for the opened file;
* `parseCsv` is an RFC 4180-style CSV reader used to state the
  write-then-read round-trip property.
-/

set_option maxHeartbeats 1000000

namespace CsvExport

/-- Values occurring in an exercise record: JSON `null`, strings and booleans
(the only value shapes appearing in the repository's data). -/
inductive Value where
  | null : Value
  | str : String → Value
  | bool : Bool → Value
deriving DecidableEq

/-- A Python dict as handed to `csv.DictWriter.writerow`: an association list
from key to value (keys are distinct in a dict; insertion order is the
iteration order). -/
abbrev Record := List (String × Value)

/-- The `fieldnames` list shared by `complete_export.py`,
`export_all_exercises.py`, `export_complete.py` and `json_to_csv.py`. -/
def fieldnames : List String :=
  ["id", "name", "instructions", "video_url", "created_at", "type",
   "difficulty", "category_id", "is_variation", "equipment", "muscle"]

/-- The `fields` list of `export_to_csv` in `export_exercises.py`, which
orders the same eleven columns differently. -/
def export_exercises_fields : List String :=
  ["id", "name", "type", "muscle", "instructions", "equipment", "video_url",
   "difficulty", "category_id", "is_variation", "created_at"]

/-- String the `csv` module writes for a cell value: `str()` of the value for
strings and booleans, the empty string for `None`. -/
def cellString : Value → String
  | .null => ""
  | .str s => s
  | .bool b => if b then "True" else "False"

/-! ## The csv writer (excel dialect, QUOTE_MINIMAL) -/

/-- Characters that force a field to be quoted: the delimiter, the quote
character and the line-terminator characters. -/
def isSpecial (c : Char) : Bool := c = ',' || c = '"' || c = '\r' || c = '\n'

/-- Double every quote character (the escaping applied inside a quoted
field). -/
def escape : List Char → List Char
  | [] => []
  | c :: cs => if c = '"' then '"' :: '"' :: escape cs else c :: escape cs

/-- Encode one field: quote it iff it contains a special character. -/
def encodeField (f : List Char) : List Char :=
  if f.any isSpecial then '"' :: (escape f ++ ['"']) else f

/-- Join encoded fields with the `,` delimiter. -/
def joinComma : List (List Char) → List Char
  | [] => []
  | [f] => f
  | f :: fs => f ++ ',' :: joinComma fs

/-- Encode one row, terminated by CRLF.  A row that is a single empty field is
written as `""` (CPython's writer quotes it so the row is not mistaken for a
blank line). -/
def encodeRow (fs : List (List Char)) : List Char :=
  if fs = [[]] then ['"', '"', '\r', '\n']
  else joinComma (fs.map encodeField) ++ ['\r', '\n']

/-- Encode a row of cell strings. -/
def encodeRowStr (cells : List String) : List Char :=
  encodeRow (cells.map String.data)

/-! ## DictWriter and the export loop -/

/-- True iff the dict has a key outside the `fieldnames` list — the condition
under which `DictWriter._dict_to_list` raises `ValueError` (default
`extrasaction='raise'`). -/
def hasExtraKey (fields : List String) (r : Record) : Bool :=
  r.any (fun kv => !(fields.contains kv.1))

/-- The row `DictWriter` emits for a dict: for each field name in order,
`rowdict.get(key, restval)` with the default `restval=''`, converted to its
written string form. -/
def rowCells (fields : List String) (r : Record) : List String :=
  fields.map (fun k => cellString ((r.lookup k).getD (.str "")))

/-- The exceptions the scripts' `try`/`except Exception` can catch. -/
inductive ExportError where
  | valueError : ExportError
  | destinationWriteError : ExportError
deriving DecidableEq

/-- Outcome of one script run. -/
structure ExportResult where
  /-- Bytes (characters) written to the destination file. -/
  output : List Char
  /-- Data rows handed to the underlying csv writer, in order. -/
  rows : List (List String)
  /-- State of the input record list after the run (the scripts mutate the
  records in place while normalizing `None` values). -/
  finalRecords : List Record
  /-- The count printed by `print(f"Exported \x7bcount\x7d exercises")` — only
  reached when the loop completes without an exception. -/
  reportedCount : Option Nat
  /-- The exception caught by the `except` clause, if any. -/
  error : Option ExportError
deriving DecidableEq

/-- One write to the destination: `none` is an infallible destination, `some
n` is a destination that accepts `n` more writes and then fails. -/
def tryWrite (budget : Option Nat) : Except ExportError (Option Nat) :=
  match budget with
  | none => .ok none
  | some 0 => .error .destinationWriteError
  | some (n + 1) => .ok (some n)

/-- The in-place normalization loop
`for key, value in exercise.items(): if value is None: exercise[key] = ""`. -/
def normalize (r : Record) : Record :=
  r.map (fun kv => (kv.1, if kv.2 = Value.null then Value.str "" else kv.2))

/-- Apply the normalization pass iff the script performs it
(`complete_export.py` / `export_all_exercises.py` do, `json_to_csv.py` /
`export_exercises.py` do not). -/
def nrm (doNorm : Bool) (r : Record) : Record :=
  if doNorm then normalize r else r

/-- The per-record loop of the scripts: normalize (optionally, in place), then
`writer.writerow(exercise)` — which first checks for unexpected keys
(`ValueError`) and only then writes the encoded row — then `count += 1`.  Any
exception stops the loop; output already written stays written. -/
def exportLoop (fields : List String) (doNorm : Bool) :
    List Record → Option Nat → ExportResult
  | [], _ =>
    { output := [], rows := [], finalRecords := [], reportedCount := some 0,
      error := none }
  | r :: rs, budget =>
    if hasExtraKey fields (nrm doNorm r) then
      { output := [], rows := [], finalRecords := nrm doNorm r :: rs,
        reportedCount := none, error := some .valueError }
    else
      match tryWrite budget with
      | .error e =>
        { output := [], rows := [], finalRecords := nrm doNorm r :: rs,
          reportedCount := none, error := some e }
      | .ok budget' =>
        { output := encodeRowStr (rowCells fields (nrm doNorm r)) ++
            (exportLoop fields doNorm rs budget').output,
          rows := rowCells fields (nrm doNorm r) ::
            (exportLoop fields doNorm rs budget').rows,
          finalRecords := nrm doNorm r ::
            (exportLoop fields doNorm rs budget').finalRecords,
          reportedCount :=
            ((exportLoop fields doNorm rs budget').reportedCount).map (· + 1),
          error := (exportLoop fields doNorm rs budget').error }

/-- A whole script run: open the destination and write the header
(`writer.writeheader()`, i.e. a row whose cells are the field names), then run
the record loop.  `failAfter` models the destination: `none` never fails,
`some k` fails on the `(k+1)`-th write. -/
def exportCore (fields : List String) (doNorm : Bool) (failAfter : Option Nat)
    (records : List Record) : ExportResult :=
  match tryWrite failAfter with
  | .error e =>
    { output := [], rows := [], finalRecords := records, reportedCount := none,
      error := some e }
  | .ok budget =>
    { output := encodeRowStr fields ++
        (exportLoop fields doNorm records budget).output,
      rows := (exportLoop fields doNorm records budget).rows,
      finalRecords := (exportLoop fields doNorm records budget).finalRecords,
      reportedCount := (exportLoop fields doNorm records budget).reportedCount,
      error := (exportLoop fields doNorm records budget).error }

/-- The export of `complete_export.py` / `export_all_exercises.py`
(`export_exercises`): fixed `fieldnames`, in-place null normalization,
infallible destination. -/
def export_exercises (records : List Record) : ExportResult :=
  exportCore fieldnames true none records

/-- The export of `export_exercises.py` (`export_to_csv`): its own field
order, no normalization loop (`writer.writerows(exercises)` directly). -/
def export_to_csv (records : List Record) : ExportResult :=
  exportCore export_exercises_fields false none records

/-- True iff the record has an entry for every name in `fields`. -/
def hasAllKeys (fields : List String) (r : Record) : Bool :=
  fields.all (fun k => (r.lookup k).isSome)

/-- A record of the spec's data model: exactly the given keys (all present,
none extra). -/
def wellFormed (fields : List String) (r : Record) : Bool :=
  hasAllKeys fields r && !hasExtraKey fields r

/-- The header line the four `fieldnames`-based scripts write. -/
def headerString : String :=
  "id,name,instructions,video_url,created_at,type,difficulty,category_id,is_variation,equipment,muscle\r\n"

/-- A concrete well-formed record (the spec's §8 example, with a short
equipment string), with multi-line instructions and three null fields. -/
def sampleRecord : Record :=
  [("id", .str "1"), ("name", .str "Push-up"), ("instructions", .str "a\nb"),
   ("video_url", .str ""), ("created_at", .str ""), ("type", .str "chest"),
   ("difficulty", .null), ("category_id", .null), ("is_variation", .bool false),
   ("equipment", .str "eq"), ("muscle", .null)]

/-- `sampleRecord` with an extra twelfth key not in the header. -/
def sampleExtra : Record := ("bogus", Value.str "x") :: sampleRecord

/-- `sampleRecord` with the required key `muscle` missing outright. -/
def sampleMissing : Record :=
  [("id", .str "1"), ("name", .str "Push-up"), ("instructions", .str "a\nb"),
   ("video_url", .str ""), ("created_at", .str ""), ("type", .str "chest"),
   ("difficulty", .null), ("category_id", .null), ("is_variation", .bool false),
   ("equipment", .str "eq")]

/-- A well-formed record none of whose values is null. -/
def sampleNoNull : Record :=
  [("id", .str "2"), ("name", .str "Squat"), ("instructions", .str "s1"),
   ("video_url", .str "u"), ("created_at", .str "t"), ("type", .str "legs"),
   ("difficulty", .str "d"), ("category_id", .str "c"),
   ("is_variation", .bool true), ("equipment", .str "eq"),
   ("muscle", .str "m")]

/-! ## An RFC 4180-style CSV reader (for the round-trip property) -/

/-- Characters that end an unquoted field: the delimiter or a line
terminator. -/
def stopChar (c : Char) : Bool := c = ',' || c = '\r' || c = '\n'

/-- Read an unquoted field: everything up to the next delimiter or line
terminator. -/
def parseUnquoted : List Char → List Char × List Char
  | [] => ([], [])
  | c :: cs =>
    if stopChar c then ([], c :: cs)
    else (c :: (parseUnquoted cs).1, (parseUnquoted cs).2)

/-- Read the body of a quoted field, the opening quote already consumed: a
doubled quote stands for one literal quote, a lone quote closes the field. -/
def parseQuoted : List Char → Option (List Char × List Char)
  | [] => none
  | c :: rest =>
    if c = '"' then
      match rest with
      | d :: rest' =>
        if d = '"' then (parseQuoted rest').map (fun p => ('"' :: p.1, p.2))
        else some ([], d :: rest')
      | [] => some ([], [])
    else (parseQuoted rest).map (fun p => (c :: p.1, p.2))

/-- Read one field: quoted if it starts with a quote, unquoted otherwise. -/
def parseField (cs : List Char) : Option (List Char × List Char) :=
  match cs with
  | [] => some ([], [])
  | c :: rest =>
    if c = '"' then parseQuoted rest
    else some (parseUnquoted (c :: rest))

/-- Read the fields of one CSV record up to and including its CRLF
terminator (or the end of input); `fuel` bounds the number of fields. -/
def parseFieldsF : Nat → List Char → Option (List (List Char) × List Char)
  | 0, _ => none
  | fuel + 1, cs =>
    match parseField cs with
    | none => none
    | some (f, rest) =>
      match rest with
      | [] => some ([f], [])
      | c :: rest' =>
        if c = ',' then
          (parseFieldsF fuel rest').map (fun p => (f :: p.1, p.2))
        else if c = '\r' then
          match rest' with
          | d :: rest'' => if d = '\n' then some ([f], rest'') else none
          | [] => none
        else none

/-- Read a sequence of CSV records; `fuel` bounds the number of rows. -/
def parseRowsF : Nat → List Char → Option (List (List (List Char)))
  | 0, cs => if cs = [] then some [] else none
  | fuel + 1, cs =>
    if cs = [] then some []
    else
      match parseFieldsF (cs.length + 1) cs with
      | none => none
      | some (fs, rest) => (parseRowsF fuel rest).map (fs :: ·)

/-- Parse a whole CSV document into rows of fields. -/
def parseCsv (cs : List Char) : Option (List (List (List Char))) :=
  parseRowsF (cs.length + 1) cs

end CsvExport

namespace CsvExport

/-! ## Basic lemmas about normalization and the loop -/

theorem cellString_normValue (v : Value) :
    cellString (if v = Value.null then Value.str "" else v) = cellString v := by
  cases v <;> simp [cellString]

theorem normalize_lookup (r : Record) (k : String) :
    (normalize r).lookup k =
      (r.lookup k).map (fun v => if v = Value.null then Value.str "" else v) := by
  induction r with
  | nil => rfl
  | cons kv t ih =>
    obtain ⟨k', v⟩ := kv
    simp only [normalize, List.map_cons, List.lookup] at ih ⊢
    cases h : (k == k')
    · simp only [h]
      exact ih
    · simp only [h]
      rfl

theorem rowCells_normalize (fields : List String) (r : Record) :
    rowCells fields (normalize r) = rowCells fields r := by
  unfold rowCells
  congr 1
  funext k
  rw [normalize_lookup]
  cases h : r.lookup k
  · rfl
  · simp [cellString_normValue]

theorem hasExtraKey_normalize (fields : List String) (r : Record) :
    hasExtraKey fields (normalize r) = hasExtraKey fields r := by
  unfold hasExtraKey normalize
  rw [List.any_map]
  rfl

theorem wellFormed_no_extra {fields : List String} {r : Record}
    (h : wellFormed fields r = true) : hasExtraKey fields r = false := by
  simp [wellFormed] at h
  exact h.2

theorem normalize_eq_self {r : Record} (h : ∀ kv ∈ r, kv.2 ≠ Value.null) :
    normalize r = r := by
  unfold normalize
  induction r with
  | nil => rfl
  | cons kv t ih =>
    have h1 := h kv (List.mem_cons_self kv t)
    simp only [List.map_cons, if_neg h1]
    rw [ih (fun x hx => h x (List.mem_cons_of_mem kv hx))]

/-- On an infallible destination with no unexpected keys, the loop writes one
row per record, in order, and reports the length. -/
theorem exportLoop_ok (fields : List String) (doNorm : Bool)
    (records : List Record)
    (h : ∀ r ∈ records, hasExtraKey fields (nrm doNorm r) = false) :
    exportLoop fields doNorm records none =
      { output := (records.map
          (fun r => encodeRowStr (rowCells fields (nrm doNorm r)))).flatten,
        rows := records.map (fun r => rowCells fields (nrm doNorm r)),
        finalRecords := records.map (nrm doNorm),
        reportedCount := some records.length,
        error := none } := by
  induction records with
  | nil => rfl
  | cons r rs ih =>
    have hr : hasExtraKey fields (nrm doNorm r) = false :=
      h r (List.mem_cons_self r rs)
    have hrest := ih (fun x hx => h x (List.mem_cons_of_mem r hx))
    simp [exportLoop, hr, tryWrite, hrest]

/-- Successful run of the `complete_export.py` / `export_all_exercises.py`
export on records without unexpected keys. -/
theorem export_exercises_ok (records : List Record)
    (h : ∀ r ∈ records, hasExtraKey fieldnames r = false) :
    export_exercises records =
      { output := encodeRowStr fieldnames ++
          (records.map (fun r => encodeRowStr (rowCells fieldnames r))).flatten,
        rows := records.map (rowCells fieldnames),
        finalRecords := records.map normalize,
        reportedCount := some records.length,
        error := none } := by
  have h' : ∀ r ∈ records, hasExtraKey fieldnames (nrm true r) = false := by
    intro r hr
    simpa [nrm, hasExtraKey_normalize] using h r hr
  unfold export_exercises exportCore
  simp [tryWrite, exportLoop_ok fieldnames true records h', nrm,
    rowCells_normalize]

/-- The loop leaves the record list unchanged whenever per-record
normalization is the identity, on every exit path. -/
theorem exportLoop_finalRecords_id (fields : List String) (doNorm : Bool)
    (records : List Record) (budget : Option Nat)
    (h : ∀ r ∈ records, nrm doNorm r = r) :
    (exportLoop fields doNorm records budget).finalRecords = records := by
  induction records generalizing budget with
  | nil => rfl
  | cons r rs ih =>
    have hr := h r (List.mem_cons_self r rs)
    have ih' := fun b => ih b (fun x hx => h x (List.mem_cons_of_mem r hx))
    simp only [exportLoop, hr]
    by_cases hx : hasExtraKey fields r = true
    · simp [hx]
    · have hx' : hasExtraKey fields r = false := by simpa using hx
      cases htw : tryWrite budget with
      | error e => simp [hx', htw]
      | ok b' => simp [hx', htw, ih' b']

/-- If some record has an unexpected key, the loop ends with an exception and
writes no row for that record or any later one. -/
theorem exportLoop_extra_key (fields : List String) (doNorm : Bool)
    (records : List Record) (budget : Option Nat) (i : Nat) (r : Record)
    (hi : records.get? i = some r)
    (hx : hasExtraKey fields (nrm doNorm r) = true) :
    ((exportLoop fields doNorm records budget).error).isSome = true ∧
    (exportLoop fields doNorm records budget).rows.length ≤ i := by
  induction records generalizing budget i with
  | nil => simp at hi
  | cons r0 rs ih =>
    cases i with
    | zero =>
      obtain rfl : r0 = r := by simpa using hi
      simp [exportLoop, hx]
    | succ i' =>
      have hi' : rs.get? i' = some r := by simpa using hi
      by_cases h0 : hasExtraKey fields (nrm doNorm r0) = true
      · simp [exportLoop, h0]
      · have h0' : hasExtraKey fields (nrm doNorm r0) = false := by simpa using h0
        cases htw : tryWrite budget with
        | error e => simp [exportLoop, h0', htw]
        | ok b' =>
          have hrec := ih b' i' hi'
          simp only [exportLoop, h0', Bool.false_eq_true, if_false, htw]
          exact ⟨hrec.1, by simpa using Nat.succ_le_succ hrec.2⟩

/-- If the destination fails after `k` writes with `k` smaller than the
number of records, the loop ends with the write error, reports no count, and
the output is exactly the first `k` encoded rows. -/
theorem exportLoop_write_fail (fields : List String) (doNorm : Bool)
    (records : List Record) (k : Nat)
    (hall : ∀ r ∈ records, hasExtraKey fields (nrm doNorm r) = false)
    (hk : k < records.length) :
    (exportLoop fields doNorm records (some k)).error =
        some ExportError.destinationWriteError ∧
    (exportLoop fields doNorm records (some k)).reportedCount = none ∧
    (exportLoop fields doNorm records (some k)).output =
      ((records.map
        (fun r => encodeRowStr (rowCells fields (nrm doNorm r)))).take k).flatten := by
  induction records generalizing k with
  | nil => simp at hk
  | cons r rs ih =>
    have hr := hall r (List.mem_cons_self r rs)
    cases k with
    | zero => simp [exportLoop, hr, tryWrite]
    | succ k' =>
      have hrec := ih k' (fun x hx => hall x (List.mem_cons_of_mem r hx))
        (Nat.lt_of_succ_lt_succ hk)
      simp [exportLoop, hr, tryWrite, hrec.1, hrec.2.1, hrec.2.2]

/-! ## Round-trip lemmas for the csv writer and reader -/

theorem stopChar_eq_false {c : Char} (h : isSpecial c = false) :
    stopChar c = false := by
  unfold isSpecial at h
  unfold stopChar
  simp only [Bool.or_eq_false_iff] at h ⊢
  exact ⟨⟨h.1.1.1, h.1.2⟩, h.2⟩

theorem quote_isSpecial {c : Char} (h : isSpecial c = false) : c ≠ '"' := by
  intro hc
  subst hc
  simp [isSpecial] at h

theorem parseUnquoted_append (f sep : List Char)
    (hf : ∀ c ∈ f, isSpecial c = false)
    (hsep : sep = [] ∨ ∃ c t, sep = c :: t ∧ stopChar c = true) :
    parseUnquoted (f ++ sep) = (f, sep) := by
  induction f with
  | nil =>
    rcases hsep with rfl | ⟨c, t, rfl, hc⟩
    · rfl
    · simp [parseUnquoted, hc]
  | cons c f' ih =>
    have hc := hf c (List.mem_cons_self c f')
    have hstop := stopChar_eq_false hc
    have ih' := ih (fun x hx => hf x (List.mem_cons_of_mem c hx))
    simp [parseUnquoted, hstop, ih']

theorem parseQuoted_escape (f sep : List Char)
    (hsep : ∀ t, sep ≠ '"' :: t) :
    parseQuoted (escape f ++ '"' :: sep) = some (f, sep) := by
  induction f with
  | nil =>
    simp only [escape, List.nil_append]
    cases sep with
    | nil => rfl
    | cons d t =>
      have hd : d ≠ '"' := fun h => hsep t (by rw [h])
      simp [parseQuoted, hd]
  | cons c f' ih =>
    by_cases hc : c = '"'
    · subst hc
      simp only [escape, if_pos rfl, List.cons_append]
      simp [parseQuoted, ih]
    · simp only [escape, if_neg hc, List.cons_append]
      rw [parseQuoted.eq_def]
      simp [hc, ih]

theorem parseField_encodeField (f sep : List Char)
    (hsep : sep = [] ∨ (∃ t, sep = ',' :: t) ∨ (∃ t, sep = '\r' :: t)) :
    parseField (encodeField f ++ sep) = some (f, sep) := by
  by_cases hq : f.any isSpecial
  · have hsep' : ∀ t, sep ≠ '"' :: t := by
      intro u hu
      rcases hsep with rfl | ⟨t, rfl⟩ | ⟨t, rfl⟩
      · exact List.noConfusion hu
      · injection hu with h1 h2
        exact absurd h1 (by decide)
      · injection hu with h1 h2
        exact absurd h1 (by decide)
    simp only [encodeField, if_pos hq]
    have harr : ('"' :: (escape f ++ ['"'])) ++ sep =
        '"' :: (escape f ++ '"' :: sep) := by simp
    rw [harr]
    simp [parseField, parseQuoted_escape f sep hsep']
  · have hall : ∀ c ∈ f, isSpecial c = false := by
      intro c hc
      have h0 := List.any_eq_false.mp (Bool.eq_false_iff.mpr hq) c hc
      simpa using h0
    simp only [encodeField, if_neg hq]
    cases f with
    | nil =>
      rcases hsep with rfl | ⟨t, rfl⟩ | ⟨t, rfl⟩
      · rfl
      · have h1 : (',' : Char) ≠ '"' := by decide
        simp [parseField, h1, parseUnquoted, stopChar]
      · have h1 : ('\r' : Char) ≠ '"' := by decide
        simp [parseField, h1, parseUnquoted, stopChar]
    | cons c f' =>
      have hc := hall c (List.mem_cons_self c f')
      have hcq : c ≠ '"' := quote_isSpecial hc
      have hun : parseUnquoted ((c :: f') ++ sep) = (c :: f', sep) := by
        apply parseUnquoted_append _ _ hall
        rcases hsep with rfl | ⟨t, rfl⟩ | ⟨t, rfl⟩
        · exact Or.inl rfl
        · exact Or.inr ⟨',', t, rfl, by decide⟩
        · exact Or.inr ⟨'\r', t, rfl, by decide⟩
      simp only [List.cons_append] at hun ⊢
      simp [parseField, hcq, hun]

theorem parseFieldsF_encode (fs : List (List Char)) (rest : List Char)
    (fuel : Nat) (hne : fs ≠ []) (hfuel : fs.length ≤ fuel) :
    parseFieldsF fuel (joinComma (fs.map encodeField) ++ '\r' :: '\n' :: rest) =
      some (fs, rest) := by
  induction fs generalizing fuel with
  | nil => exact absurd rfl hne
  | cons f fs' ih =>
    obtain ⟨n, rfl⟩ : ∃ n, fuel = n + 1 := by
      cases fuel
      · simp at hfuel
      · exact ⟨_, rfl⟩
    cases fs' with
    | nil =>
      simp only [List.map_cons, List.map_nil, joinComma]
      have hf := parseField_encodeField f ('\r' :: '\n' :: rest)
        (Or.inr (Or.inr ⟨_, rfl⟩))
      have h1 : ('\r' : Char) ≠ ',' := by decide
      simp [parseFieldsF, hf, h1]
    | cons g fs'' =>
      have harr : joinComma ((f :: g :: fs'').map encodeField) ++
          '\r' :: '\n' :: rest =
          encodeField f ++
            (',' :: (joinComma ((g :: fs'').map encodeField) ++
              '\r' :: '\n' :: rest)) := by
        simp [joinComma]
      rw [harr]
      have hf := parseField_encodeField f
        (',' :: (joinComma ((g :: fs'').map encodeField) ++ '\r' :: '\n' :: rest))
        (Or.inr (Or.inl ⟨_, rfl⟩))
      have hrec := ih n (by simp) (by simpa using Nat.le_of_succ_le_succ hfuel)
      set Y := joinComma ((g :: fs'').map encodeField) ++ '\r' :: '\n' :: rest
        with hY
      rw [parseFieldsF.eq_def]
      simp [hf, hrec]

theorem len_le_joinComma (fs : List (List Char)) :
    fs.length ≤ (joinComma (fs.map encodeField)).length + 1 := by
  induction fs with
  | nil => simp [joinComma]
  | cons f fs' ih =>
    cases fs' with
    | nil => simp [joinComma]
    | cons g t =>
      have hjc : joinComma ((f :: g :: t).map encodeField) =
          encodeField f ++ ',' :: joinComma ((g :: t).map encodeField) := by
        simp [joinComma]
      rw [hjc]
      simp only [List.length_append, List.length_cons] at *
      omega

theorem one_le_encodeRow (fs : List (List Char)) :
    1 ≤ (encodeRow fs).length := by
  unfold encodeRow
  split
  · simp
  · simp

theorem encodeRow_of_two_le {fs : List (List Char)} (h : 2 ≤ fs.length) :
    encodeRow fs = joinComma (fs.map encodeField) ++ ['\r', '\n'] := by
  unfold encodeRow
  rw [if_neg]
  intro hq
  rw [hq] at h
  simp at h

theorem rows_le_flatten (L : List (List (List Char))) :
    L.length ≤ ((L.map encodeRow).flatten).length := by
  induction L with
  | nil => simp
  | cons row t ih =>
    have h1 := one_le_encodeRow row
    simp only [List.map_cons, List.flatten_cons, List.length_append,
      List.length_cons]
    omega

theorem parseRowsF_encode (rows : List (List (List Char))) (fuel : Nat)
    (h2 : ∀ row ∈ rows, 2 ≤ row.length)
    (hfuel : rows.length ≤ fuel) :
    parseRowsF fuel ((rows.map encodeRow).flatten) = some rows := by
  induction rows generalizing fuel with
  | nil => cases fuel <;> simp [parseRowsF]
  | cons row rows' ih =>
    obtain ⟨n, rfl⟩ : ∃ n, fuel = n + 1 := by
      cases fuel
      · simp at hfuel
      · exact ⟨_, rfl⟩
    have hrow := h2 row (List.mem_cons_self row rows')
    have henc := encodeRow_of_two_le hrow
    have hcs : ((row :: rows').map encodeRow).flatten =
        encodeRow row ++ (rows'.map encodeRow).flatten := by simp
    rw [hcs]
    have hrec := ih n (fun r hr => h2 r (List.mem_cons_of_mem row hr))
      (by simpa using Nat.le_of_succ_le_succ hfuel)
    set X := (rows'.map encodeRow).flatten with hX
    set cs := encodeRow row ++ X with hcsdef
    have hne : cs ≠ [] := by
      rw [hcsdef, henc]
      simp
    have hfields : parseFieldsF (cs.length + 1) cs = some (row, X) := by
      rw [hcsdef, henc]
      have harr : (joinComma (row.map encodeField) ++ ['\r', '\n']) ++ X =
          joinComma (row.map encodeField) ++ '\r' :: '\n' :: X := by simp
      rw [harr]
      apply parseFieldsF_encode
      · intro hnil
        rw [hnil] at hrow
        simp at hrow
      · have hlen := len_le_joinComma row
        simp only [List.length_append, List.length_cons]
        omega
    rw [parseRowsF.eq_def]
    simp [hne, hfields, hrec]

/-- Parsing the output of a successful export recovers the header cells and
every record's cells exactly. -/
theorem parseCsv_export (records : List Record)
    (h : ∀ r ∈ records, wellFormed fieldnames r = true) :
    parseCsv (export_exercises records).output =
      some ((fieldnames.map String.data) ::
        records.map (fun r => (rowCells fieldnames r).map String.data)) := by
  have hout : (export_exercises records).output =
      ((((fieldnames.map String.data) ::
        records.map (fun r => (rowCells fieldnames r).map String.data)).map
          encodeRow).flatten) := by
    rw [export_exercises_ok records (fun r hr => wellFormed_no_extra (h r hr))]
    simp [encodeRowStr, List.map_map, Function.comp]
    rfl
  rw [hout]
  unfold parseCsv
  apply parseRowsF_encode
  · intro row hrow
    rcases List.mem_cons.mp hrow with rfl | hmem
    · decide
    · obtain ⟨r, -, rfl⟩ := List.mem_map.mp hmem
      simp [rowCells, fieldnames]
  · have := rows_le_flatten ((fieldnames.map String.data) ::
      records.map (fun r => (rowCells fieldnames r).map String.data))
    omega

/-! ## Claims -/

/-- C10: on the empty input sequence the export succeeds, the output is
exactly the single header row with no data rows, and the reported row count
is 0. -/
theorem c10_empty_input :
    (export_exercises []).output = headerString.data ∧
    (export_exercises []).rows = [] ∧
    (export_exercises []).reportedCount = some 0 ∧
    (export_exercises []).error = none := by
  decide

/-- C4 counterexample: `export_to_csv` from `export_exercises.py` — one of
the places the claim cites — writes its header in the order
`id,name,type,muscle,instructions,equipment,video_url,difficulty,category_id,is_variation,created_at`,
so its header row is not the fixed header the claim states. -/
theorem c4_cex : (export_to_csv []).output ≠ headerString.data := by
  decide

/-- C4 (amended): the exporters based on the shared `fieldnames` list
(`complete_export.py`, `export_all_exercises.py`, `export_complete.py`,
`json_to_csv.py`) write, for every input, the byte-identical header row
`id,name,instructions,video_url,created_at,type,difficulty,category_id,is_variation,equipment,muscle`
first, regardless of input content or key ordering inside records; the
remaining script, `export_exercises.py`, writes the same eleven names in a
different fixed order. -/
theorem c4_header_fixed (records : List Record) :
    ∃ rest, (export_exercises records).output = headerString.data ++ rest := by
  refine ⟨(exportLoop fieldnames true records none).output, ?_⟩
  unfold export_exercises exportCore
  simp only [tryWrite]
  congr 1

/-- C2 counterexample: `sampleExtra` contains all eleven required keys, yet
the export of `[sampleExtra]` fails (DictWriter raises ValueError on the
extra key) and reports no row count. -/
theorem c2_cex :
    hasAllKeys fieldnames sampleExtra = true ∧
    ¬((export_exercises [sampleExtra]).error = none ∧
      (export_exercises [sampleExtra]).reportedCount = some 1) := by
  decide

/-- C2 (amended): for every finite input sequence in which every record
contains exactly the eleven required keys (all present and no extra key),
the export succeeds and the reported row count equals the length of the
input sequence. -/
theorem c2_exact_keys_count (records : List Record)
    (h : ∀ r ∈ records, wellFormed fieldnames r = true) :
    (export_exercises records).error = none ∧
    (export_exercises records).reportedCount = some records.length := by
  rw [export_exercises_ok records (fun r hr => wellFormed_no_extra (h r hr))]
  exact ⟨rfl, rfl⟩

/-- Witness for `c2_exact_keys_count` at a concrete one-record input. -/
theorem c2_exact_keys_count_witness :
    (∀ r ∈ [sampleRecord], wellFormed fieldnames r = true) ∧
    ((export_exercises [sampleRecord]).error = none ∧
     (export_exercises [sampleRecord]).reportedCount = some [sampleRecord].length) :=
  ⟨by decide, c2_exact_keys_count [sampleRecord] (by decide)⟩

/-- C3 counterexample: `sampleMissing` lacks the required key `muscle`
entirely, yet the export succeeds (no MalformedRecord-style failure), reports
a count of 1, and writes a full, non-ragged eleven-cell row with an empty
`muscle` cell. -/
theorem c3_cex :
    (export_exercises [sampleMissing]).error = none ∧
    (export_exercises [sampleMissing]).reportedCount = some 1 ∧
    (export_exercises [sampleMissing]).rows =
      [["1", "Push-up", "a\nb", "", "", "chest", "", "", "False", "eq", ""]] := by
  decide

/-- C3 (amended): if a record is missing one of the eleven required keys (as
opposed to having it explicitly null), the export does not fail: DictWriter
substitutes its default `restval` (the empty string) for the missing field,
the emitted row still has all eleven cells — never a ragged row — and one row
is still written for every record, later valid records included. -/
theorem c3_missing_key_restval (records : List Record) (i j : Nat)
    (r : Record) (k : String)
    (hall : ∀ r' ∈ records, hasExtraKey fieldnames r' = false)
    (hi : records.get? i = some r)
    (hj : fieldnames.get? j = some k)
    (hm : r.lookup k = none) :
    (export_exercises records).error = none ∧
    (export_exercises records).rows.length = records.length ∧
    ∃ row, (export_exercises records).rows.get? i = some row ∧
      row.length = 11 ∧ row.get? j = some "" := by
  rw [export_exercises_ok records hall]
  rw [List.get?_eq_getElem?] at hi hj
  refine ⟨rfl, by simp, rowCells fieldnames r, ?_, ?_, ?_⟩
  · simp [List.get?_eq_getElem?, List.getElem?_map, hi]
  · simp [rowCells, fieldnames]
  · simp [rowCells, List.get?_eq_getElem?, List.getElem?_map, hj, hm,
      cellString]

/-- Witness for `c3_missing_key_restval`: the record missing `muscle`. -/
theorem c3_missing_key_restval_witness :
    (∀ r' ∈ [sampleMissing], hasExtraKey fieldnames r' = false) ∧
    [sampleMissing].get? 0 = some sampleMissing ∧
    fieldnames.get? 10 = some "muscle" ∧
    sampleMissing.lookup "muscle" = none ∧
    ((export_exercises [sampleMissing]).error = none ∧
     (export_exercises [sampleMissing]).rows.length = [sampleMissing].length ∧
     ∃ row, (export_exercises [sampleMissing]).rows.get? 0 = some row ∧
       row.length = 11 ∧ row.get? 10 = some "") :=
  ⟨by decide, by decide, by decide, by decide,
   c3_missing_key_restval [sampleMissing] 0 10 sampleMissing "muscle"
     (by decide) (by decide) (by decide) (by decide)⟩

/-- C8 counterexample: the export mutates its input — `sampleRecord` has
null-valued fields, and after the pass the record list differs from its
pre-call state (the nulls were overwritten with empty strings in place). -/
theorem c8_cex :
    (export_exercises [sampleRecord]).finalRecords ≠ [sampleRecord] := by
  decide

/-- C8 (amended): the export is not read-only — it overwrites null values
with empty strings in the input records in place; only an input whose records
contain no null value is left unchanged by the pass. -/
theorem c8_no_null_unchanged (records : List Record)
    (h : ∀ r ∈ records, ∀ kv ∈ r, kv.2 ≠ Value.null) :
    (export_exercises records).finalRecords = records := by
  have h' : ∀ r ∈ records, nrm true r = r := by
    intro r hr
    simp [nrm, normalize_eq_self (h r hr)]
  unfold export_exercises exportCore
  simp [tryWrite, exportLoop_finalRecords_id fieldnames true records none h']

/-- Witness for `c8_no_null_unchanged` at a null-free record. -/
theorem c8_no_null_unchanged_witness :
    (∀ r ∈ [sampleNoNull], ∀ kv ∈ r, kv.2 ≠ Value.null) ∧
    (export_exercises [sampleNoNull]).finalRecords = [sampleNoNull] :=
  ⟨by decide, c8_no_null_unchanged [sampleNoNull] (by decide)⟩

/-- C9: a record containing a key not among the eleven field names makes the
export fail (DictWriter's default `extrasaction='raise'` raises ValueError
before the row is written): the run ends with an error and no row for that
record — nor for any later one — is written. -/
theorem c9_extra_key_fails (records : List Record) (i : Nat) (r : Record)
    (k : String) (v : Value)
    (hi : records.get? i = some r) (hin : (k, v) ∈ r)
    (hnot : k ∉ fieldnames) :
    ((export_exercises records).error).isSome = true ∧
    (export_exercises records).rows.length ≤ i := by
  have hx : hasExtraKey fieldnames (nrm true r) = true := by
    rw [nrm, if_pos rfl, hasExtraKey_normalize]
    unfold hasExtraKey
    refine List.any_eq_true.mpr ⟨(k, v), hin, ?_⟩
    simp [hnot]
  have hrec := exportLoop_extra_key fieldnames true records none i r hi hx
  unfold export_exercises exportCore
  simpa [tryWrite] using hrec

/-- Witness for `c9_extra_key_fails`: the record with the extra key. -/
theorem c9_extra_key_fails_witness :
    [sampleExtra].get? 0 = some sampleExtra ∧
    ("bogus", Value.str "x") ∈ sampleExtra ∧
    "bogus" ∉ fieldnames ∧
    (((export_exercises [sampleExtra]).error).isSome = true ∧
     (export_exercises [sampleExtra]).rows.length ≤ 0) :=
  ⟨by decide, by decide, by decide,
   c9_extra_key_fails [sampleExtra] 0 sampleExtra "bogus" (Value.str "x")
     (by decide) (by decide) (by decide)⟩

/-- C1: in a successful export (records with exactly the eleven keys), the
cell of row `i`, column `j` is the empty string when record `i`'s value for
field `j` is null, and otherwise the value's verbatim string form — strings
unchanged, booleans as `True`/`False`, with no other coercion. -/
theorem c1_null_empty_value_verbatim (records : List Record) (i j : Nat)
    (r : Record) (k : String) (v : Value)
    (h : ∀ r' ∈ records, wellFormed fieldnames r' = true)
    (hi : records.get? i = some r)
    (hj : fieldnames.get? j = some k)
    (hv : r.lookup k = some v) :
    ∃ row, (export_exercises records).rows.get? i = some row ∧
      row.get? j = some (match v with
        | Value.null => ""
        | Value.str s => s
        | Value.bool b => if b then "True" else "False") := by
  rw [export_exercises_ok records (fun r' hr => wellFormed_no_extra (h r' hr))]
  rw [List.get?_eq_getElem?] at hi hj
  refine ⟨rowCells fieldnames r,
    by simp [List.get?_eq_getElem?, List.getElem?_map, hi], ?_⟩
  simp only [rowCells, List.get?_eq_getElem?, List.getElem?_map, hj,
    Option.map_some', hv]
  cases v <;> simp [cellString]

/-- Witness for `c1_null_empty_value_verbatim`: the null `difficulty` field
of `sampleRecord` (column 6) renders as the empty string. -/
theorem c1_null_empty_value_verbatim_witness :
    (∀ r' ∈ [sampleRecord], wellFormed fieldnames r' = true) ∧
    [sampleRecord].get? 0 = some sampleRecord ∧
    fieldnames.get? 6 = some "difficulty" ∧
    sampleRecord.lookup "difficulty" = some Value.null ∧
    (∃ row, (export_exercises [sampleRecord]).rows.get? 0 = some row ∧
      row.get? 6 = some "") :=
  ⟨by decide, by decide, by decide, by decide,
   c1_null_empty_value_verbatim [sampleRecord] 0 6 sampleRecord "difficulty"
     Value.null (by decide) (by decide) (by decide) (by decide)⟩

/-- C5: for an input sequence of data-model records the output is the header
row first, then exactly one data row per record, in input order (the rows
handed to the csv writer are exactly the per-record cell lists, in the input
order, and the file content is the header line followed by their encodings,
concatenated in that order). -/
theorem c5_header_then_rows_in_order (records : List Record)
    (h : ∀ r ∈ records, wellFormed fieldnames r = true) :
    (export_exercises records).output =
      headerString.data ++
        (records.map (fun r => encodeRowStr (rowCells fieldnames r))).flatten ∧
    (export_exercises records).rows = records.map (rowCells fieldnames) := by
  rw [export_exercises_ok records (fun r hr => wellFormed_no_extra (h r hr))]
  refine ⟨?_, rfl⟩
  show encodeRowStr fieldnames ++ _ = headerString.data ++ _
  congr 1

/-- Witness for `c5_header_then_rows_in_order` at a one-record input. -/
theorem c5_header_then_rows_in_order_witness :
    (∀ r ∈ [sampleRecord], wellFormed fieldnames r = true) ∧
    ((export_exercises [sampleRecord]).output =
      headerString.data ++
        ([sampleRecord].map
          (fun r => encodeRowStr (rowCells fieldnames r))).flatten ∧
     (export_exercises [sampleRecord]).rows =
       [sampleRecord].map (rowCells fieldnames)) :=
  ⟨by decide, c5_header_then_rows_in_order [sampleRecord] (by decide)⟩

/-- C7: if the destination fails at the `(k+1)`-th write — `k = 0` models a
destination that cannot be opened, larger `k` a write failing partway — the
run surfaces the destination write error as its single terminal error,
reports no partial-success count, and leaves the partially-written output
as-is with no cleanup: exactly the header and the rows written before the
failure point. -/
theorem c7_destination_failure (records : List Record) (k : Nat)
    (h : ∀ r ∈ records, wellFormed fieldnames r = true)
    (hk : k ≤ records.length) :
    (exportCore fieldnames true (some k) records).error =
        some ExportError.destinationWriteError ∧
    (exportCore fieldnames true (some k) records).reportedCount = none ∧
    (exportCore fieldnames true (some k) records).output =
      ((encodeRowStr fieldnames ::
        records.map (fun r => encodeRowStr (rowCells fieldnames r))).take k).flatten := by
  have hall : ∀ r ∈ records, hasExtraKey fieldnames (nrm true r) = false := by
    intro r hr
    simpa [nrm, hasExtraKey_normalize] using wellFormed_no_extra (h r hr)
  cases k with
  | zero => simp [exportCore, tryWrite]
  | succ k' =>
    have hrec := exportLoop_write_fail fieldnames true records k' hall
      (Nat.lt_of_succ_le hk)
    simp only [nrm, if_pos, rowCells_normalize] at hrec
    simp [exportCore, tryWrite, hrec.1, hrec.2.1, hrec.2.2]

/-- Witness for `c7_destination_failure`: destination failing after the
header write leaves exactly the header behind, with an error and no count. -/
theorem c7_destination_failure_witness :
    ((∀ r ∈ [sampleRecord], wellFormed fieldnames r = true) ∧ 1 ≤ 1) ∧
    ((exportCore fieldnames true (some 1) [sampleRecord]).error =
        some ExportError.destinationWriteError ∧
     (exportCore fieldnames true (some 1) [sampleRecord]).reportedCount = none ∧
     (exportCore fieldnames true (some 1) [sampleRecord]).output =
       ((encodeRowStr fieldnames ::
         [sampleRecord].map
           (fun r => encodeRowStr (rowCells fieldnames r))).take 1).flatten) :=
  ⟨⟨by decide, by decide⟩,
   c7_destination_failure [sampleRecord] 1 (by decide) (by decide)⟩

/-- C6: for an input of data-model records, one of which has an
`instructions` value containing embedded newline characters, parsing the
produced CSV back with the RFC 4180-style reader reconstructs the original
multi-line instructions string exactly — the write-then-read round trip is
the identity on the field value (cell 2 of that record's data row). -/
theorem c6_instructions_roundtrip (records : List Record) (i : Nat)
    (r : Record) (s : String)
    (h : ∀ r' ∈ records, wellFormed fieldnames r' = true)
    (hi : records.get? i = some r)
    (hs : r.lookup "instructions" = some (Value.str s))
    (hnl : s.data.contains '\n' = true) :
    ∃ rows, parseCsv (export_exercises records).output =
        some ((fieldnames.map String.data) :: rows) ∧
      ∃ row, rows.get? i = some row ∧ row.get? 2 = some s.data := by
  refine ⟨records.map (fun r => (rowCells fieldnames r).map String.data),
    parseCsv_export records h, ?_⟩
  rw [List.get?_eq_getElem?] at hi
  refine ⟨(rowCells fieldnames r).map String.data,
    by simp [List.get?_eq_getElem?, List.getElem?_map, hi], ?_⟩
  have hf2 : fieldnames[2]? = some "instructions" := rfl
  simp [rowCells, List.get?_eq_getElem?, List.getElem?_map, List.map_map,
    Function.comp, hf2, hs, cellString]

/-- Witness for `c6_instructions_roundtrip`: the sample record whose
instructions value is a two-line string joined by a newline. -/
theorem c6_instructions_roundtrip_witness :
    ((∀ r' ∈ [sampleRecord], wellFormed fieldnames r' = true) ∧
     [sampleRecord].get? 0 = some sampleRecord ∧
     sampleRecord.lookup "instructions" = some (Value.str "a\nb") ∧
     ("a\nb").data.contains '\n' = true) ∧
    (∃ rows, parseCsv (export_exercises [sampleRecord]).output =
        some ((fieldnames.map String.data) :: rows) ∧
      ∃ row, rows.get? 0 = some row ∧ row.get? 2 = some ("a\nb").data) :=
  ⟨⟨by decide, by decide, by decide, by decide⟩,
   c6_instructions_roundtrip [sampleRecord] 0 sampleRecord "a\nb"
     (by decide) (by decide) (by decide) (by decide)⟩

end CsvExport
